import Mathlib

/-!
# Verification of the collaborative-board scene / history core

Shallow embedding of the whiteboard's stroke model, geometry kernel,
hit detector, coordinate transformer and the zustand store's state
machine (src/hooks/use-whiteboard-store.ts, second store definition,
whose inline actions override the spread slices; src/lib/cursor-manager.ts
StrokeUtils; src/lib/canvas-utils.ts HitDetector; src/lib/export-utils.tsx
CoordinateTransformer).

Conventions of the embedding:
* JS numbers are embedded as exact rationals (`ℚ`).
* `Math.cos` / `Math.sin` / `Math.atan2` and the canvas text-measurement
  capability `ctx.measureText` are transcendental / environment-dependent;
  they are carried as parameters in an `Env` record, exactly where the
  source calls them.  `Env.measure fs line` stands for the width of
  `line` measured at font size `fs`.
* `Math.sqrt (dx^2 + dy^2) <= r` is embedded as the equivalent rational
  test `0 ≤ r ∧ dx^2 + dy^2 ≤ r^2` (justified against `Real.sqrt` by
  `sqrtLe_correct` below).
* JS `v || d` on an optional number (`undefined` and `0` are falsy) is
  embedded by `jsOr`.
* Fresh ids minted from `Date.now()` are passed in explicitly as
  arguments of the corresponding operations.
-/

/-- A 2-D point with exact rational coordinates (`{x, y}` in the source). -/
structure Pt where
  x : ℚ
  y : ℚ
deriving DecidableEq

/-- The stroke type tag (`pen | rectangle | ellipse | line | text`). -/
inductive SType where
  | pen
  | rectangle
  | ellipse
  | line
  | text
deriving DecidableEq

/-- The polymorphic stroke entity of `src/lib/types.ts`.  Optional fields
are `Option`s; `selected` defaults to the JS-falsy `false`. -/
structure Stroke where
  id : String
  type : SType
  points : List Pt
  color : String
  strokeWidth : ℚ
  startPoint : Option Pt := none
  endPoint : Option Pt := none
  text : Option String := none
  fontSize : Option ℚ := none
  mathMode : Bool := false
  selected : Bool := false
  rotation : Option ℚ := none
deriving DecidableEq

/-- An axis-aligned bounding box `{minX, minY, maxX, maxY}`. -/
structure Bounds where
  minX : ℚ
  minY : ℚ
  maxX : ℚ
  maxY : ℚ
deriving DecidableEq

/-- JS `v || d` for an optional number: `undefined` and `0` give `d`. -/
def jsOr (v : Option ℚ) (d : ℚ) : ℚ :=
  match v with
  | none => d
  | some x => if x = 0 then d else x

/-- The environment capabilities the source obtains from the platform:
trigonometry (`Math.cos`, `Math.sin`, `Math.atan2`) and canvas text
measurement (`ctx.measureText` at a given font size). -/
structure Env where
  cos : ℚ → ℚ
  sin : ℚ → ℚ
  atan2 : ℚ → ℚ → ℚ
  measure : ℚ → String → ℚ

/-- `Math.sqrt (dx² + dy²) ≤ r` as a rational test; embeds the
distance comparisons of `eraseAtPoint` and the pen hit test. -/
def sqrtLe (s r : ℚ) : Bool :=
  decide (0 ≤ r) && decide (s ≤ r * r)

/-- Justification of the `sqrtLe` embedding: it agrees with the real
square-root comparison the JS code performs. -/
theorem sqrtLe_correct (s r : ℚ) :
    sqrtLe s r = true ↔ Real.sqrt (s : ℝ) ≤ (r : ℝ) := by
  rw [Real.sqrt_le_iff]
  simp only [sqrtLe, Bool.and_eq_true, decide_eq_true_eq]
  constructor
  · rintro ⟨h1, h2⟩
    refine ⟨by exact_mod_cast h1, ?_⟩
    have h : (s : ℝ) ≤ (r : ℝ) * (r : ℝ) := by exact_mod_cast h2
    nlinarith [h]
  · rintro ⟨h1, h2⟩
    refine ⟨by exact_mod_cast h1, ?_⟩
    have h : (s : ℝ) ≤ (r : ℝ) * (r : ℝ) := by nlinarith [h2]
    exact_mod_cast h

/-- Squared distance between two points. -/
def distSq (p q : Pt) : ℚ :=
  (p.x - q.x) * (p.x - q.x) + (p.y - q.y) * (p.y - q.y)

instance : Inhabited Pt := ⟨⟨0, 0⟩⟩

/-- `rotatePoint(x, y, cx, cy, angle)` of src/lib/cursor-manager.ts:
standard 2-D rotation about a pivot, with `Math.cos`/`Math.sin` taken
from the environment. -/
def rotatePoint (env : Env) (x y cx cy angle : ℚ) : Pt :=
  let c := env.cos angle
  let s := env.sin angle
  let dx := x - cx
  let dy := y - cy
  ⟨cx + dx * c - dy * s, cy + dx * s + dy * c⟩

/-- Min/max fold over a point list, as the source's `±Infinity` fold;
callers always guard on a non-empty list, the `[]` case is never used. -/
def ptsBox : List Pt → Bounds
  | [] => ⟨0, 0, 0, 0⟩
  | p :: ps =>
    ps.foldl (fun b q => ⟨min b.minX q.x, min b.minY q.y, max b.maxX q.x, max b.maxY q.y⟩)
      ⟨p.x, p.y, p.x, p.y⟩

/-- The four corners of a box, in the order the source lists them. -/
def boxCorners (b : Bounds) : List Pt :=
  [⟨b.minX, b.minY⟩, ⟨b.maxX, b.minY⟩, ⟨b.maxX, b.maxY⟩, ⟨b.minX, b.maxY⟩]

/-- `StrokeUtils.calculateBounds` (src/lib/cursor-manager.ts).  Only the
path where a 2d canvas context is available is modelled; the text line
widths come from `env.measure` (standing for `ctx.measureText`). -/
def calculateBounds (env : Env) (stroke : Stroke) : Bounds :=
  let rot := jsOr stroke.rotation 0
  if stroke.type = SType.text ∧ stroke.points ≠ [] then
    let point := stroke.points.headI
    let fontSize := jsOr stroke.fontSize 16
    let text := stroke.text.getD ""
    let lineHeight := fontSize * (6 / 5)
    let lines := text.splitOn "\n"
    let w := (lines.map (env.measure fontSize)).foldl max 20
    let h := max lineHeight (lineHeight * (lines.length : ℚ))
    let pad : ℚ := 2
    if rot ≠ 0 then
      let cx := point.x + w / 2
      let cy := point.y + h / 2
      let cs : List Pt := [⟨point.x, point.y⟩, ⟨point.x + w, point.y⟩,
        ⟨point.x + w, point.y + h⟩, ⟨point.x, point.y + h⟩]
      let b := ptsBox (cs.map fun q => rotatePoint env q.x q.y cx cy rot)
      ⟨b.minX - pad, b.minY - pad, b.maxX + pad, b.maxY + pad⟩
    else
      ⟨point.x - pad, point.y - pad, point.x + w + pad, point.y + h + pad⟩
  else
    match stroke.startPoint, stroke.endPoint with
    | some sp, some ep =>
      let b0 : Bounds := ⟨min sp.x ep.x, min sp.y ep.y, max sp.x ep.x, max sp.y ep.y⟩
      if rot ≠ 0 then
        let cx := (b0.minX + b0.maxX) / 2
        let cy := (b0.minY + b0.maxY) / 2
        ptsBox ((boxCorners b0).map fun q => rotatePoint env q.x q.y cx cy rot)
      else b0
    | _, _ =>
      if stroke.points ≠ [] then
        if rot ≠ 0 then
          let u := ptsBox stroke.points
          let cx := (u.minX + u.maxX) / 2
          let cy := (u.minY + u.maxY) / 2
          ptsBox (stroke.points.map fun p => rotatePoint env p.x p.y cx cy rot)
        else ptsBox stroke.points
      else ⟨0, 0, 0, 0⟩

/-- `StrokeUtils.applyResize` (src/lib/cursor-manager.ts). -/
def applyResize (stroke : Stroke) (handle : String) (deltaX deltaY : ℚ) : Stroke :=
  if stroke.type = SType.text then
    let currentFontSize := jsOr stroke.fontSize 16
    let newFontSize :=
      if handle = "se" ∨ handle = "sw" ∨ handle = "s" then
        max 12 (currentFontSize + deltaY * (8 / 10))
      else if handle = "ne" ∨ handle = "nw" ∨ handle = "n" then
        max 12 (currentFontSize - deltaY * (8 / 10))
      else currentFontSize
    { stroke with fontSize := some newFontSize }
  else
    match stroke.startPoint, stroke.endPoint with
    | some sp, some ep =>
      let np : Pt × Pt :=
        if handle = "nw" then (⟨sp.x + deltaX, sp.y + deltaY⟩, ep)
        else if handle = "ne" then (⟨sp.x, sp.y + deltaY⟩, ⟨ep.x + deltaX, ep.y⟩)
        else if handle = "sw" then (⟨sp.x + deltaX, sp.y⟩, ⟨ep.x, ep.y + deltaY⟩)
        else if handle = "se" then (sp, ⟨ep.x + deltaX, ep.y + deltaY⟩)
        else if handle = "n" then (⟨sp.x, sp.y + deltaY⟩, ep)
        else if handle = "s" then (sp, ⟨ep.x, ep.y + deltaY⟩)
        else if handle = "w" then (⟨sp.x + deltaX, sp.y⟩, ep)
        else if handle = "e" then (sp, ⟨ep.x + deltaX, ep.y⟩)
        else (sp, ep)
      { stroke with startPoint := some np.1, endPoint := some np.2 }
    | _, _ => stroke

/-- The DOM rectangle returned by `canvas.getBoundingClientRect()`;
only `left`/`top` are read by the transformer. -/
structure DomRect where
  left : ℚ
  top : ℚ
deriving DecidableEq

/-- The view state `{zoom, panX, panY}` read by the transformer. -/
structure CanvasView where
  zoom : ℚ
  panX : ℚ
  panY : ℚ
deriving DecidableEq

/-- `CoordinateTransformer.screenToCanvas` (src/lib/export-utils.tsx). -/
def screenToCanvas (screenX screenY : ℚ) (rect : DomRect) (st : CanvasView) : Pt :=
  ⟨(screenX - rect.left - st.panX) / st.zoom, (screenY - rect.top - st.panY) / st.zoom⟩

/-- `CoordinateTransformer.canvasToScreen` (src/lib/export-utils.tsx). -/
def canvasToScreen (canvasX canvasY : ℚ) (rect : DomRect) (st : CanvasView) : Pt :=
  ⟨canvasX * st.zoom + st.panX + rect.left, canvasY * st.zoom + st.panY + rect.top⟩

/-- `HitDetector.getStrokeAtPoint`'s per-stroke test (src/lib/canvas-utils.ts,
body of the topmost-first loop), with the bounds calculation injected as in
the source signature. -/
def strokeHit (boundsFn : Stroke → Bounds) (point : Pt) (stroke : Stroke) : Bool :=
  if stroke.type = SType.text ∧ stroke.points ≠ [] then
    let b := boundsFn stroke
    decide (b.minX ≤ point.x ∧ point.x ≤ b.maxX ∧ b.minY ≤ point.y ∧ point.y ≤ b.maxY)
  else
    match stroke.startPoint, stroke.endPoint with
    | some sp, some ep =>
      decide (min sp.x ep.x - 12 ≤ point.x ∧ point.x ≤ max sp.x ep.x + 12 ∧
        min sp.y ep.y - 12 ≤ point.y ∧ point.y ≤ max sp.y ep.y + 12)
    | _, _ =>
      stroke.points.any fun p => sqrtLe (distSq p point) (max 14 (stroke.strokeWidth + 10))

/-- `HitDetector.getStrokeAtPoint` (src/lib/canvas-utils.ts): the source
loops from the last index down and returns the first hit, i.e. it is
`find?` over the reversed scene. -/
def getStrokeAtPoint (point : Pt) (strokes : List Stroke)
    (boundsFn : Stroke → Bounds) : Option Stroke :=
  strokes.reverse.find? (strokeHit boundsFn point)

/-- The selection marquee rectangle `{startX, startY, endX, endY}`. -/
structure SelBox where
  startX : ℚ
  startY : ℚ
  endX : ℚ
  endY : ℚ
deriving DecidableEq

/-- `HitDetector.getStrokesInSelectionBox` (src/lib/canvas-utils.ts):
membership of a stroke in the normalized marquee box ("anchor inside" for
text, bbox overlap for shapes, "any point inside" for pen). -/
def getStrokesInSelectionBox (strokes : List Stroke) (box : SelBox) : List String :=
  let minX := min box.startX box.endX
  let maxX := max box.startX box.endX
  let minY := min box.startY box.endY
  let maxY := max box.startY box.endY
  (strokes.filter fun stroke =>
    if stroke.type = SType.text ∧ stroke.points ≠ [] then
      let point := stroke.points.headI
      decide (minX ≤ point.x ∧ point.x ≤ maxX ∧ minY ≤ point.y ∧ point.y ≤ maxY)
    else
      match stroke.startPoint, stroke.endPoint with
      | some sp, some ep =>
        decide (min sp.x ep.x ≤ maxX ∧ max sp.x ep.x ≥ minX ∧
          min sp.y ep.y ≤ maxY ∧ max sp.y ep.y ≥ minY)
      | _, _ =>
        stroke.points.any fun p =>
          decide (minX ≤ p.x ∧ p.x ≤ maxX ∧ minY ≤ p.y ∧ p.y ≤ maxY)).map (·.id)

/-- The §3 data-model invariant on a stroke: a pen stroke has sample points
and no shape diagonal, a text stroke has exactly its anchor point, and a
shape stroke carries both diagonal endpoints. -/
def wellFormed (s : Stroke) : Bool :=
  match s.type with
  | SType.pen => decide (s.points ≠ []) && s.startPoint.isNone && s.endPoint.isNone
  | SType.text => decide (s.points.length = 1)
  | _ => s.startPoint.isSome && s.endPoint.isSome

/-- The claim's per-type generous hit region (spec side of C5): computed
bounds for text, start/end box expanded by 12 for shapes, per-sample-point
distance at most `max(14, strokeWidth+10)` for pen. -/
def specHitRegion (env : Env) (point : Pt) (stroke : Stroke) : Bool :=
  match stroke.type with
  | SType.text =>
    let b := calculateBounds env stroke
    decide (b.minX ≤ point.x ∧ point.x ≤ b.maxX ∧ b.minY ≤ point.y ∧ point.y ≤ b.maxY)
  | SType.pen =>
    stroke.points.any fun p => sqrtLe (distSq p point) (max 14 (stroke.strokeWidth + 10))
  | _ =>
    match stroke.startPoint, stroke.endPoint with
    | some sp, some ep =>
      decide (min sp.x ep.x - 12 ≤ point.x ∧ point.x ≤ max sp.x ep.x + 12 ∧
        min sp.y ep.y - 12 ≤ point.y ∧ point.y ≤ max sp.y ep.y + 12)
    | _, _ => false

/-- `find?` returns the head of the filtered list. -/
theorem find?_eq_head?_filter {α : Type} (p : α → Bool) (l : List α) :
    l.find? p = (l.filter p).head? := by
  induction l with
  | nil => rfl
  | cons a t ih =>
      by_cases h : p a
      · simp [List.filter_cons, h, List.find?_cons]
      · rw [List.find?_cons_of_neg _ (by simp [h]), List.filter_cons_of_neg (by simp [h]), ih]

/-- Scanning a list from the back for the first match finds the element of
greatest index satisfying the predicate. -/
theorem find?_reverse_eq_getLast?_filter {α : Type} (p : α → Bool) (l : List α) :
    l.reverse.find? p = (l.filter p).getLast? := by
  rw [← List.head?_reverse, ← List.filter_reverse, find?_eq_head?_filter]

/-- The transient text-editing record `{id, x, y, text, mathMode}`. -/
structure EditingText where
  id : String
  x : ℚ
  y : ℚ
  text : String
  mathMode : Bool
deriving DecidableEq

/-- A persisted whiteboard document; only the fields the store's
`loadDocument` reads are modelled (timestamps and thumbnail are opaque to
the scene/history core). -/
structure WDoc where
  id : String
  name : String
  strokes : List Stroke
deriving DecidableEq

/-- The store state of src/hooks/use-whiteboard-store.ts (the second,
slice-composed store definition, whose inline actions are the effective
overrides). -/
structure State where
  currentTool : String
  currentColor : String
  currentStrokeWidth : ℚ
  zoom : ℚ
  panX : ℚ
  panY : ℚ
  strokes : List Stroke
  currentStroke : Option Stroke
  isDrawingShape : Bool
  shapeStartPoint : Option Pt
  selectedStrokes : List String
  selectionBox : Option SelBox
  isSelecting : Bool
  isDragging : Bool
  dragStart : Option Pt
  resizeHandle : Option String
  isRotating : Bool
  rotateStart : Option Pt
  editingText : Option EditingText
  history : List (List Stroke)
  historyIndex : ℕ
  currentDocument : Option WDoc
  isModified : Bool
deriving DecidableEq

/-- The store's initial state. -/
def initialState : State where
  currentTool := "pen"
  currentColor := "#2563eb"
  currentStrokeWidth := 4
  zoom := 1
  panX := 0
  panY := 0
  strokes := []
  currentStroke := none
  isDrawingShape := false
  shapeStartPoint := none
  selectedStrokes := []
  selectionBox := none
  isSelecting := false
  isDragging := false
  dragStart := none
  resizeHandle := none
  isRotating := false
  rotateStart := none
  editingText := none
  history := [[]]
  historyIndex := 0
  currentDocument := none
  isModified := false

/-- `history.slice(0, historyIndex + 1)` followed by `push(snap)`: the
truncate-then-append idiom every committing mutation uses. -/
def truncPush (history : List (List Stroke)) (idx : ℕ) (snap : List Stroke) :
    List (List Stroke) :=
  history.take (idx + 1) ++ [snap]

/-- The `canUndo` computed property. -/
def canUndo (st : State) : Bool :=
  decide (0 < st.historyIndex)

/-- The `canRedo` computed property (`historyIndex < history.length - 1`,
compared as JS numbers, hence over `ℤ`). -/
def canRedo (st : State) : Bool :=
  decide ((st.historyIndex : ℤ) < (st.history.length : ℤ) - 1)

/-- JS truthiness of an optional string (`null`/`""` falsy). -/
def strTruthy (o : Option String) : Bool :=
  match o with
  | none => false
  | some h => decide (h ≠ "")

/-- `addStroke` (store): append the stroke, truncate-push one snapshot. -/
def addStroke (stroke : Stroke) (st : State) : State :=
  let newStrokes := st.strokes ++ [stroke]
  let newHistory := truncPush st.history st.historyIndex newStrokes
  { st with
    strokes := newStrokes
    history := newHistory
    historyIndex := newHistory.length - 1
    isModified := true }

/-- `clearSelection`. -/
def clearSelection (st : State) : State :=
  { st with
    strokes := st.strokes.map fun s => { s with selected := false }
    selectedStrokes := [] }

/-- `setCurrentTool` (clears the selection when leaving the select tool). -/
def setCurrentTool (tool : String) (st : State) : State :=
  let st' := { st with currentTool := tool }
  if tool ≠ "select" then clearSelection st' else st'

/-- `setCurrentColor`: retroactively recolors an active selection (with a
history push) when in select mode, otherwise just sets the color. -/
def setCurrentColor (color : String) (st : State) : State :=
  if st.currentTool = "select" ∧ st.selectedStrokes ≠ [] then
    let newStrokes := st.strokes.map fun s =>
      if st.selectedStrokes.contains s.id then { s with color := color } else s
    let newHistory := truncPush st.history st.historyIndex newStrokes
    { st with
      currentColor := color
      strokes := newStrokes
      history := newHistory
      historyIndex := newHistory.length - 1
      isModified := true }
  else
    { st with currentColor := color }

/-- `finishStroke` (store override): commit the draft stroke and return to
the select tool. -/
def finishStroke (st : State) : State :=
  match st.currentStroke with
  | some c =>
    let st1 := addStroke c st
    { st1 with currentStroke := none, currentTool := "select" }
  | none => st

/-- Tool-name string to stroke tag, for `startShape`'s `type:
state.currentTool` cast.  (Callers only pass shape tools; other strings
never reach a committed stroke.) -/
def toSType (s : String) : SType :=
  if s = "rectangle" then SType.rectangle
  else if s = "ellipse" then SType.ellipse
  else if s = "line" then SType.line
  else if s = "text" then SType.text
  else SType.pen

/-- `startShape` (store override); `freshId` stands for
`Date.now().toString()`. -/
def startShape (point : Pt) (freshId : String) (st : State) : State :=
  { st with
    isDrawingShape := true
    shapeStartPoint := some point
    currentStroke := some
      { id := freshId
        type := toSType st.currentTool
        points := []
        color := st.currentColor
        strokeWidth := st.currentStrokeWidth
        startPoint := some point
        endPoint := some point } }

/-- `updateShape`. -/
def updateShape (point : Pt) (st : State) : State :=
  match st.currentStroke with
  | some c =>
    if st.isDrawingShape then
      { st with currentStroke := some { c with endPoint := some point } }
    else st
  | none => st

/-- `finishShape` (store override). -/
def finishShape (st : State) : State :=
  match st.currentStroke with
  | some c =>
    if st.isDrawingShape then
      let st1 := addStroke c st
      { st1 with
        currentStroke := none
        isDrawingShape := false
        shapeStartPoint := none
        currentTool := "select" }
    else st
  | none => st

/-- The per-stroke retention test of `eraseAtPoint`: `true` keeps the
stroke.  (The source reads `points[0]` of a text stroke unguarded and
would throw on an empty-points text stroke; such strokes are never
constructed, and the embedding keeps them.) -/
def eraseKeep (x y radius : ℚ) (stroke : Stroke) : Bool :=
  match stroke.type with
  | SType.text =>
    match stroke.points with
    | [] => true
    | p :: _ => !(sqrtLe (distSq p ⟨x, y⟩) radius)
  | SType.rectangle | SType.ellipse | SType.line =>
    match stroke.startPoint, stroke.endPoint with
    | some sp, some ep =>
      decide (¬(min sp.x ep.x - radius ≤ x ∧ x ≤ max sp.x ep.x + radius ∧
        min sp.y ep.y - radius ≤ y ∧ y ≤ max sp.y ep.y + radius))
    | _, _ => true
  | SType.pen =>
    !(stroke.points.any fun p => sqrtLe (distSq p ⟨x, y⟩) radius)

/-- `eraseAtPoint` (store): filter, and push one snapshot only when
something was removed. -/
def eraseAtPoint (x y radius : ℚ) (st : State) : State :=
  let newStrokes := st.strokes.filter (eraseKeep x y radius)
  if newStrokes.length ≠ st.strokes.length then
    let newHistory := truncPush st.history st.historyIndex newStrokes
    { st with
      strokes := newStrokes
      history := newHistory
      historyIndex := newHistory.length - 1
      isModified := true }
  else st

/-- `selectStroke` (store override). -/
def selectStroke (id : String) (addToSelection : Bool) (st : State) : State :=
  let newSelected := if addToSelection then st.selectedStrokes ++ [id] else [id]
  let newStrokes := st.strokes.map fun s => { s with selected := newSelected.contains s.id }
  { st with selectedStrokes := newSelected, strokes := newStrokes }

/-- `selectMultiple`. -/
def selectMultiple (ids : List String) (st : State) : State :=
  let newStrokes := st.strokes.map fun s => { s with selected := ids.contains s.id }
  { st with selectedStrokes := ids, strokes := newStrokes }

/-- `deleteSelected`: remove selected strokes and push one snapshot. -/
def deleteSelected (st : State) : State :=
  let newStrokes := st.strokes.filter fun s => !(st.selectedStrokes.contains s.id)
  let newHistory := truncPush st.history st.historyIndex newStrokes
  { st with
    strokes := newStrokes
    selectedStrokes := []
    history := newHistory
    historyIndex := newHistory.length - 1
    isModified := true }

/-- `startSelection`. -/
def startSelection (point : Pt) (st : State) : State :=
  { st with
    isSelecting := true
    selectionBox := some ⟨point.x, point.y, point.x, point.y⟩ }

/-- `updateSelection`. -/
def updateSelection (point : Pt) (st : State) : State :=
  match st.selectionBox with
  | some b => { st with selectionBox := some { b with endX := point.x, endY := point.y } }
  | none => st

/-- The marquee membership test of the store's `finishSelection` override:
text by computed-bounds overlap, shapes by bbox overlap, pen by
any-point-inside. -/
def finishSelectionPred (env : Env) (minX maxX minY maxY : ℚ) (stroke : Stroke) : Bool :=
  if stroke.type = SType.text ∧ stroke.points ≠ [] then
    let b := calculateBounds env stroke
    decide (b.minX ≤ maxX ∧ b.maxX ≥ minX ∧ b.minY ≤ maxY ∧ b.maxY ≥ minY)
  else
    match stroke.startPoint, stroke.endPoint with
    | some sp, some ep =>
      decide (min sp.x ep.x ≤ maxX ∧ max sp.x ep.x ≥ minX ∧
        min sp.y ep.y ≤ maxY ∧ max sp.y ep.y ≥ minY)
    | _, _ =>
      stroke.points.any fun p =>
        decide (minX ≤ p.x ∧ p.x ≤ maxX ∧ minY ≤ p.y ∧ p.y ≤ maxY)

/-- `finishSelection` (store override, src/hooks/use-whiteboard-store.ts
lines 1157-1194). -/
def finishSelection (env : Env) (st : State) : State :=
  match st.selectionBox with
  | some box =>
    let minX := min box.startX box.endX
    let maxX := max box.startX box.endX
    let minY := min box.startY box.endY
    let maxY := max box.startY box.endY
    let selectedIds :=
      (st.strokes.filter (finishSelectionPred env minX maxX minY maxY)).map (·.id)
    let st1 := selectMultiple selectedIds st
    { st1 with isSelecting := false, selectionBox := none }
  | none => { st with isSelecting := false, selectionBox := none }

/-- `startDrag`. -/
def startDrag (point : Pt) (st : State) : State :=
  { st with isDragging := true, dragStart := some point }

/-- Per-stroke translation applied by `updateDrag` to a selected stroke. -/
def dragStroke (deltaX deltaY : ℚ) (stroke : Stroke) : Stroke :=
  if stroke.type = SType.text ∧ stroke.points ≠ [] then
    let p := stroke.points.headI
    { stroke with points := [⟨p.x + deltaX, p.y + deltaY⟩] }
  else
    match stroke.startPoint, stroke.endPoint with
    | some sp, some ep =>
      { stroke with
        startPoint := some ⟨sp.x + deltaX, sp.y + deltaY⟩
        endPoint := some ⟨ep.x + deltaX, ep.y + deltaY⟩ }
    | _, _ =>
      if stroke.points ≠ [] then
        { stroke with points := stroke.points.map fun p => ⟨p.x + deltaX, p.y + deltaY⟩ }
      else stroke

/-- `updateDrag` (store override): translate the selected strokes by the
delta from `dragStart` and rebase `dragStart`; no history write. -/
def updateDrag (point : Pt) (st : State) : State :=
  match st.dragStart with
  | some d =>
    if st.isDragging then
      let deltaX := point.x - d.x
      let deltaY := point.y - d.y
      let newStrokes := st.strokes.map fun s =>
        if st.selectedStrokes.contains s.id then dragStroke deltaX deltaY s else s
      { st with strokes := newStrokes, dragStart := some point }
    else st
  | none => st

/-- `finishDrag`: one history push when a drag was active. -/
def finishDrag (st : State) : State :=
  if st.isDragging then
    let newHistory := truncPush st.history st.historyIndex st.strokes
    { st with
      isDragging := false
      dragStart := none
      history := newHistory
      historyIndex := newHistory.length - 1
      isModified := true }
  else st

/-- `startResize`. -/
def startResize (handle : String) (point : Pt) (st : State) : State :=
  { st with resizeHandle := some handle, dragStart := some point }

/-- The shape-handle switch of `updateResize` (same mapping as
`StrokeUtils.applyResize`). -/
def resizeShape (handle : String) (deltaX deltaY : ℚ) (sp ep : Pt) : Pt × Pt :=
  if handle = "nw" then (⟨sp.x + deltaX, sp.y + deltaY⟩, ep)
  else if handle = "ne" then (⟨sp.x, sp.y + deltaY⟩, ⟨ep.x + deltaX, ep.y⟩)
  else if handle = "sw" then (⟨sp.x + deltaX, sp.y⟩, ⟨ep.x, ep.y + deltaY⟩)
  else if handle = "se" then (sp, ⟨ep.x + deltaX, ep.y + deltaY⟩)
  else if handle = "n" then (⟨sp.x, sp.y + deltaY⟩, ep)
  else if handle = "s" then (sp, ⟨ep.x, ep.y + deltaY⟩)
  else if handle = "w" then (⟨sp.x + deltaX, sp.y⟩, ep)
  else if handle = "e" then (sp, ⟨ep.x + deltaX, ep.y⟩)
  else (sp, ep)

/-- The text-handle switch of `updateResize`. -/
def resizeTextFontSize (handle : String) (deltaY fontSize : ℚ) : ℚ :=
  if handle = "se" ∨ handle = "sw" ∨ handle = "s" then
    max 12 (fontSize + deltaY * (8 / 10))
  else if handle = "ne" ∨ handle = "nw" ∨ handle = "n" then
    max 12 (fontSize - deltaY * (8 / 10))
  else fontSize

/-- `updateResize` (store override): acts only with an active handle, a
drag anchor and a single selection; rebases `dragStart`; no history
write. -/
def updateResize (point : Pt) (st : State) : State :=
  match st.dragStart with
  | some d =>
    if strTruthy st.resizeHandle ∧ st.selectedStrokes.length = 1 then
      let strokeId := st.selectedStrokes.headI
      match st.strokes.find? (fun s => s.id = strokeId) with
      | none => st
      | some stroke =>
        let deltaX := point.x - d.x
        let deltaY := point.y - d.y
        let handle := st.resizeHandle.getD ""
        let newStrokes :=
          if stroke.type = SType.text then
            let newFontSize := resizeTextFontSize handle deltaY (jsOr stroke.fontSize 16)
            st.strokes.map fun s =>
              if s.id = strokeId then { s with fontSize := some newFontSize } else s
          else
            match stroke.startPoint, stroke.endPoint with
            | some sp, some ep =>
              let np := resizeShape handle deltaX deltaY sp ep
              st.strokes.map fun s =>
                if s.id = strokeId then
                  { s with startPoint := some np.1, endPoint := some np.2 }
                else s
            | _, _ => st.strokes
        { st with strokes := newStrokes, dragStart := some point }
    else st
  | none => st

/-- `finishResize`: one history push when a resize was active. -/
def finishResize (st : State) : State :=
  if strTruthy st.resizeHandle then
    let newHistory := truncPush st.history st.historyIndex st.strokes
    { st with
      resizeHandle := none
      dragStart := none
      history := newHistory
      historyIndex := newHistory.length - 1
      isModified := true }
  else st

/-- `startRotate`. -/
def startRotate (point : Pt) (st : State) : State :=
  { st with isRotating := true, rotateStart := some point }

/-- `updateRotate` (store override): accumulates the `atan2` angle delta
about the stroke's bounds center into `rotation`; no history write. -/
def updateRotate (env : Env) (point : Pt) (st : State) : State :=
  match st.rotateStart with
  | some r =>
    if st.isRotating ∧ st.selectedStrokes.length = 1 then
      let strokeId := st.selectedStrokes.headI
      match st.strokes.find? (fun s => s.id = strokeId) with
      | none => st
      | some stroke =>
        let bounds := calculateBounds env stroke
        let centerX := (bounds.minX + bounds.maxX) / 2
        let centerY := (bounds.minY + bounds.maxY) / 2
        let startAngle := env.atan2 (r.y - centerY) (r.x - centerX)
        let currentAngle := env.atan2 (point.y - centerY) (point.x - centerX)
        let rotation := currentAngle - startAngle
        let newStrokes := st.strokes.map fun s =>
          if s.id = strokeId then { s with rotation := some (jsOr s.rotation 0 + rotation) }
          else s
        { st with strokes := newStrokes, rotateStart := some point }
    else st
  | none => st

/-- `finishRotate`: one history push when a rotation was active. -/
def finishRotate (st : State) : State :=
  if st.isRotating then
    let newHistory := truncPush st.history st.historyIndex st.strokes
    { st with
      isRotating := false
      rotateStart := none
      history := newHistory
      historyIndex := newHistory.length - 1
      isModified := true }
  else st

/-- `startTextEdit`; `freshId` stands for `Date.now().toString()`. -/
def startTextEdit (point : Pt) (freshId : String) (st : State) : State :=
  { st with
    editingText := some { id := freshId, x := point.x, y := point.y, text := "", mathMode := false } }

/-- `updateText` (store override): keeps the edit buffer and live-commits
the text into the scene on each keystroke (updating an existing text
stroke in place, or appending a fresh stroke once the text is
non-empty); no history write. -/
def updateText (text : String) (st : State) : State :=
  match st.editingText with
  | some et =>
    let st1 := { st with editingText := some { et with text := text } }
    match st.strokes.find? (fun s => s.id = et.id) with
    | some existing =>
      if existing.type = SType.text then
        { st1 with
          strokes := st.strokes.map fun s =>
            if s.id = existing.id then { s with text := some text } else s
          isModified := true }
      else
        if text.length > 0 then
          { st1 with
            strokes := st.strokes ++ [{
              id := et.id
              type := SType.text
              points := [⟨et.x, et.y⟩]
              color := st.currentColor
              strokeWidth := st.currentStrokeWidth
              text := some text
              fontSize := some (max 16 (st.currentStrokeWidth * 4))
              mathMode := et.mathMode }]
            isModified := true }
        else st1
    | none =>
      if text.length > 0 then
        { st1 with
          strokes := st.strokes ++ [{
            id := et.id
            type := SType.text
            points := [⟨et.x, et.y⟩]
            color := st.currentColor
            strokeWidth := st.currentStrokeWidth
            text := some text
            fontSize := some (max 16 (st.currentStrokeWidth * 4))
            mathMode := et.mathMode }]
          isModified := true }
      else st1
  | none => st

/-- `finishTextEdit` (store override): commits a non-blank buffer (one
history push, via an in-place update or `addStroke`), returns to the
select tool, and always clears `editingText`. -/
def finishTextEdit (st : State) : State :=
  match st.editingText with
  | some et =>
    if et.text.trim ≠ "" then
      match st.strokes.find? (fun s => s.id = et.id) with
      | some existing =>
        if existing.type = SType.text then
          let preservedFontSize := existing.fontSize.getD (max 16 (st.currentStrokeWidth * 4))
          let preservedColor := existing.color
          let newStrokes := st.strokes.map fun s =>
            if s.id = et.id then
              { s with
                text := some et.text
                fontSize := some preservedFontSize
                color := preservedColor
                mathMode := et.mathMode }
            else s
          let newHistory := truncPush st.history st.historyIndex newStrokes
          { st with
            strokes := newStrokes
            history := newHistory
            historyIndex := newHistory.length - 1
            isModified := true
            currentTool := "select"
            editingText := none }
        else
          let st1 := addStroke
            { id := et.id
              type := SType.text
              points := [⟨et.x, et.y⟩]
              color := st.currentColor
              strokeWidth := st.currentStrokeWidth
              text := some et.text
              fontSize := some (max 16 (st.currentStrokeWidth * 4))
              mathMode := et.mathMode } st
          { st1 with currentTool := "select", editingText := none }
      | none =>
        let st1 := addStroke
          { id := et.id
            type := SType.text
            points := [⟨et.x, et.y⟩]
            color := st.currentColor
            strokeWidth := st.currentStrokeWidth
            text := some et.text
            fontSize := some (max 16 (st.currentStrokeWidth * 4))
            mathMode := et.mathMode } st
        { st1 with currentTool := "select", editingText := none }
    else { st with editingText := none }
  | none => st

/-- `setEditingText`. -/
def setEditingText (e : Option EditingText) (st : State) : State :=
  { st with editingText := e }

/-- `undo` (src/hooks/store/history-slice.ts): step back when
`historyIndex > 0`. -/
def undo (st : State) : State :=
  if 0 < st.historyIndex then
    let newIndex := st.historyIndex - 1
    { st with
      strokes := st.history.getD newIndex []
      historyIndex := newIndex
      isModified := true }
  else st

/-- `redo` (src/hooks/store/history-slice.ts): step forward when
`historyIndex < history.length - 1`. -/
def redo (st : State) : State :=
  if (st.historyIndex : ℤ) < (st.history.length : ℤ) - 1 then
    let newIndex := st.historyIndex + 1
    { st with
      strokes := st.history.getD newIndex []
      historyIndex := newIndex
      isModified := true }
  else st

/-- `newDocument`: reset scene, history, gesture state and view. -/
def newDocument (st : State) : State :=
  { st with
    strokes := []
    currentStroke := none
    history := [[]]
    historyIndex := 0
    editingText := none
    isDrawingShape := false
    shapeStartPoint := none
    selectedStrokes := []
    selectionBox := none
    isSelecting := false
    isDragging := false
    dragStart := none
    resizeHandle := none
    currentDocument := none
    isModified := false
    zoom := 1
    panX := 0
    panY := 0 }

/-- `loadDocument`: replace the scene wholesale, history reset to a
single-entry stack. -/
def loadDocument (doc : WDoc) (st : State) : State :=
  { st with
    strokes := doc.strokes
    currentStroke := none
    history := [doc.strokes]
    historyIndex := 0
    editingText := none
    isDrawingShape := false
    shapeStartPoint := none
    selectedStrokes := []
    selectionBox := none
    isSelecting := false
    isDragging := false
    dragStart := none
    resizeHandle := none
    currentDocument := some doc
    isModified := false
    zoom := 1
    panX := 0
    panY := 0 }

/-- `clear`: push an empty snapshot and reset gesture state. -/
def clear (st : State) : State :=
  let newHistory := truncPush st.history st.historyIndex []
  { st with
    strokes := []
    currentStroke := none
    history := newHistory
    historyIndex := newHistory.length - 1
    editingText := none
    isDrawingShape := false
    shapeStartPoint := none
    selectedStrokes := []
    selectionBox := none
    isSelecting := false
    isDragging := false
    dragStart := none
    resizeHandle := none
    isRotating := false
    rotateStart := none
    isModified := true }

/-- One exposed store operation (the mutation entry points of the claims;
fresh ids minted from `Date.now()` are explicit arguments). -/
inductive Op where
  | setCurrentTool (tool : String)
  | setCurrentColor (color : String)
  | setCurrentStrokeWidth (width : ℚ)
  | setZoom (zoom : ℚ)
  | setPan (x y : ℚ)
  | resetView
  | addStroke (stroke : Stroke)
  | setCurrentStroke (stroke : Option Stroke)
  | finishStroke
  | startShape (point : Pt) (freshId : String)
  | updateShape (point : Pt)
  | finishShape
  | eraseAtPoint (x y radius : ℚ)
  | selectStroke (id : String) (addToSelection : Bool)
  | selectMultiple (ids : List String)
  | clearSelection
  | deleteSelected
  | startSelection (point : Pt)
  | updateSelection (point : Pt)
  | finishSelection
  | startDrag (point : Pt)
  | updateDrag (point : Pt)
  | finishDrag
  | startResize (handle : String) (point : Pt)
  | updateResize (point : Pt)
  | finishResize
  | startRotate (point : Pt)
  | updateRotate (point : Pt)
  | finishRotate
  | startTextEdit (point : Pt) (freshId : String)
  | updateText (text : String)
  | finishTextEdit
  | setEditingText (e : Option EditingText)
  | undo
  | redo
  | newDocument
  | loadDocument (doc : WDoc)
  | clear
deriving DecidableEq

/-- The store's transition function: dispatch one operation. -/
def step (env : Env) (op : Op) (st : State) : State :=
  match op with
  | Op.setCurrentTool tool => setCurrentTool tool st
  | Op.setCurrentColor color => setCurrentColor color st
  | Op.setCurrentStrokeWidth width => { st with currentStrokeWidth := width }
  | Op.setZoom zoom => { st with zoom := zoom }
  | Op.setPan x y => { st with panX := x, panY := y }
  | Op.resetView => { st with zoom := 1, panX := 0, panY := 0 }
  | Op.addStroke stroke => addStroke stroke st
  | Op.setCurrentStroke stroke => { st with currentStroke := stroke }
  | Op.finishStroke => finishStroke st
  | Op.startShape point freshId => startShape point freshId st
  | Op.updateShape point => updateShape point st
  | Op.finishShape => finishShape st
  | Op.eraseAtPoint x y radius => eraseAtPoint x y radius st
  | Op.selectStroke id add => selectStroke id add st
  | Op.selectMultiple ids => selectMultiple ids st
  | Op.clearSelection => clearSelection st
  | Op.deleteSelected => deleteSelected st
  | Op.startSelection point => startSelection point st
  | Op.updateSelection point => updateSelection point st
  | Op.finishSelection => finishSelection env st
  | Op.startDrag point => startDrag point st
  | Op.updateDrag point => updateDrag point st
  | Op.finishDrag => finishDrag st
  | Op.startResize handle point => startResize handle point st
  | Op.updateResize point => updateResize point st
  | Op.finishResize => finishResize st
  | Op.startRotate point => startRotate point st
  | Op.updateRotate point => updateRotate env point st
  | Op.finishRotate => finishRotate st
  | Op.startTextEdit point freshId => startTextEdit point freshId st
  | Op.updateText text => updateText text st
  | Op.finishTextEdit => finishTextEdit st
  | Op.setEditingText e => setEditingText e st
  | Op.undo => undo st
  | Op.redo => redo st
  | Op.newDocument => newDocument st
  | Op.loadDocument doc => loadDocument doc st
  | Op.clear => clear st

/-- Whether the operation, applied in this state, pushes a history
snapshot (a "committed mutating operation"). -/
def commits (op : Op) (st : State) : Bool :=
  match op with
  | Op.addStroke _ => true
  | Op.setCurrentColor _ =>
    decide (st.currentTool = "select") && decide (st.selectedStrokes ≠ [])
  | Op.finishStroke => st.currentStroke.isSome
  | Op.finishShape => st.currentStroke.isSome && st.isDrawingShape
  | Op.eraseAtPoint x y radius =>
    decide ((st.strokes.filter (eraseKeep x y radius)).length ≠ st.strokes.length)
  | Op.deleteSelected => true
  | Op.finishDrag => st.isDragging
  | Op.finishResize => strTruthy st.resizeHandle
  | Op.finishRotate => st.isRotating
  | Op.finishTextEdit =>
    match st.editingText with
    | some et => decide (et.text.trim ≠ "")
    | none => false
  | Op.clear => true
  | _ => false

/-- Whether the operation kind is one of the committed mutating
operations listed by the undo/redo round-trip claim. -/
def historyCommitKind (op : Op) : Bool :=
  match op with
  | Op.addStroke _ => true
  | Op.eraseAtPoint _ _ _ => true
  | Op.finishDrag => true
  | Op.finishResize => true
  | Op.finishRotate => true
  | Op.deleteSelected => true
  | Op.clear => true
  | _ => false

/-- Run a list of operations left to right. -/
def runOps (env : Env) (st : State) (ops : List Op) : State :=
  ops.foldl (fun s op => step env op s) st

/-- Every operation of the list pushes a snapshot at its application
point. -/
def CommitsFrom (env : Env) (st : State) : List Op → Prop
  | [] => True
  | op :: ops => commits op st = true ∧ CommitsFrom env (step env op st) ops

/-- Boolean version of "every operation in the list commits at its
application point". -/
def commitsFrom (env : Env) (st : State) : List Op → Bool
  | [] => true
  | op :: ops => commits op st && commitsFrom env (step env op st) ops

/-- The history invariant: the index points at the last snapshot and that
snapshot is the current scene. -/
def HistInv (st : State) : Prop :=
  st.historyIndex + 1 = st.history.length ∧
    st.history.getD st.historyIndex [] = st.strokes

/-- Reading just past a prefix returns the appended element. -/
theorem getD_concat {α : Type} (l : List α) (a d : α) : (l ++ [a]).getD l.length d = a := by
  induction l with
  | nil => rfl
  | cons x xs ih => simp [ih]

/-- Every committing step truncates the history to `historyIndex + 1`,
appends the new scene as the single new snapshot, and points the index at
it. -/
theorem commits_push (env : Env) (op : Op) (st : State) (h : commits op st = true) :
    (step env op st).history =
        st.history.take (st.historyIndex + 1) ++ [(step env op st).strokes] ∧
      (step env op st).historyIndex + 1 = (step env op st).history.length := by
  cases op with
  | addStroke s =>
      refine ⟨rfl, ?_⟩
      simp [step, addStroke, truncPush]
  | setCurrentColor c =>
      simp only [commits, Bool.and_eq_true, decide_eq_true_eq] at h
      obtain ⟨h1, h2⟩ := h
      refine ⟨?_, ?_⟩ <;> simp [step, setCurrentColor, h1, h2, truncPush]
  | finishStroke =>
      simp only [commits, Option.isSome_iff_exists] at h
      obtain ⟨c, hc⟩ := h
      refine ⟨?_, ?_⟩ <;> simp [step, finishStroke, hc, addStroke, truncPush]
  | finishShape =>
      simp only [commits, Bool.and_eq_true, Option.isSome_iff_exists] at h
      obtain ⟨⟨c, hc⟩, h2⟩ := h
      refine ⟨?_, ?_⟩ <;> simp [step, finishShape, hc, h2, addStroke, truncPush]
  | eraseAtPoint x y radius =>
      simp only [commits, decide_eq_true_eq] at h
      refine ⟨?_, ?_⟩ <;> simp [step, eraseAtPoint, h, truncPush]
  | deleteSelected =>
      refine ⟨rfl, ?_⟩
      simp [step, deleteSelected, truncPush]
  | finishDrag =>
      simp only [commits] at h
      refine ⟨?_, ?_⟩ <;> simp [step, finishDrag, h, truncPush]
  | finishResize =>
      simp only [commits] at h
      refine ⟨?_, ?_⟩ <;> simp [step, finishResize, h, truncPush]
  | finishRotate =>
      simp only [commits] at h
      refine ⟨?_, ?_⟩ <;> simp [step, finishRotate, h, truncPush]
  | finishTextEdit =>
      simp only [commits] at h
      cases het : st.editingText with
      | none => rw [het] at h; exact absurd h (by simp)
      | some et =>
          rw [het] at h
          simp only [decide_eq_true_eq] at h
          cases hf : st.strokes.find? (fun s => s.id = et.id) with
          | none =>
              refine ⟨?_, ?_⟩ <;>
                simp [step, finishTextEdit, het, h, hf, addStroke, truncPush]
          | some ex =>
              by_cases ht : ex.type = SType.text
              · refine ⟨?_, ?_⟩ <;>
                  simp [step, finishTextEdit, het, h, hf, ht, truncPush]
              · refine ⟨?_, ?_⟩ <;>
                  simp [step, finishTextEdit, het, h, hf, ht, addStroke, truncPush]
  | clear =>
      refine ⟨rfl, ?_⟩
      simp [step, clear, truncPush]
  | setCurrentTool t => simp [commits] at h
  | setCurrentStrokeWidth w => simp [commits] at h
  | setZoom z => simp [commits] at h
  | setPan x y => simp [commits] at h
  | resetView => simp [commits] at h
  | setCurrentStroke s => simp [commits] at h
  | startShape p i => simp [commits] at h
  | updateShape p => simp [commits] at h
  | selectStroke i a => simp [commits] at h
  | selectMultiple i => simp [commits] at h
  | clearSelection => simp [commits] at h
  | startSelection p => simp [commits] at h
  | updateSelection p => simp [commits] at h
  | finishSelection => simp [commits] at h
  | startDrag p => simp [commits] at h
  | updateDrag p => simp [commits] at h
  | startResize hnd p => simp [commits] at h
  | updateResize p => simp [commits] at h
  | startRotate p => simp [commits] at h
  | updateRotate p => simp [commits] at h
  | startTextEdit p i => simp [commits] at h
  | updateText t => simp [commits] at h
  | setEditingText e => simp [commits] at h
  | undo => simp [commits] at h
  | redo => simp [commits] at h
  | newDocument => simp [commits] at h
  | loadDocument d => simp [commits] at h

/-- A committing step, from a state satisfying the history invariant,
appends one snapshot and advances the index by one. -/
theorem commits_push_inv (env : Env) (op : Op) (st : State)
    (h : commits op st = true) (hi : HistInv st) :
    HistInv (step env op st) ∧ (step env op st).historyIndex = st.historyIndex + 1 := by
  obtain ⟨h1, h2⟩ := commits_push env op st h
  obtain ⟨hi1, _⟩ := hi
  have htake : st.history.take (st.historyIndex + 1) = st.history := by
    rw [hi1]; exact List.take_length st.history
  rw [htake] at h1
  have hlen : (step env op st).history.length = st.history.length + 1 := by
    rw [h1]; simp
  have hidx : (step env op st).historyIndex = st.historyIndex + 1 := by omega
  refine ⟨⟨h2, ?_⟩, hidx⟩
  rw [h1, hidx, hi1]
  exact getD_concat _ _ _

/-- Running a list of committing operations preserves the history
invariant and advances the index by the number of operations. -/
theorem runOps_inv (env : Env) :
    ∀ (ops : List Op) (st : State), commitsFrom env st ops = true → HistInv st →
      HistInv (runOps env st ops) ∧
        (runOps env st ops).historyIndex = st.historyIndex + ops.length := by
  intro ops
  induction ops with
  | nil => intro st _ hi; exact ⟨hi, rfl⟩
  | cons op ops ih =>
      intro st hc hi
      simp only [commitsFrom, Bool.and_eq_true] at hc
      obtain ⟨hinv', hidx'⟩ := commits_push_inv env op st hc.1 hi
      obtain ⟨hinv'', hidx''⟩ := ih (step env op st) hc.2 hinv'
      refine ⟨hinv'', ?_⟩
      have : runOps env st (op :: ops) = runOps env (step env op st) ops := rfl
      rw [this, hidx'', hidx']
      simp
      omega

/-- The initial state satisfies the history invariant. -/
theorem initial_inv : HistInv initialState := by
  constructor <;> rfl

/-- One `undo` with a positive index, as a record update. -/
theorem undo_eq (st : State) (h : 0 < st.historyIndex) :
    undo st =
      { st with
        strokes := st.history.getD (st.historyIndex - 1) []
        historyIndex := st.historyIndex - 1
        isModified := true } := by
  simp only [undo]
  rw [if_pos h]

/-- One `redo` below the last index, as a record update. -/
theorem redo_eq (st : State)
    (h : (st.historyIndex : ℤ) < (st.history.length : ℤ) - 1) :
    redo st =
      { st with
        strokes := st.history.getD (st.historyIndex + 1) []
        historyIndex := st.historyIndex + 1
        isModified := true } := by
  simp only [redo]
  rw [if_pos h]

/-- Iterated `undo` walks the index back without touching the history. -/
theorem undo_iter_fields (k : ℕ) :
    ∀ st : State, k ≤ st.historyIndex →
      (undo^[k] st).history = st.history ∧
      (undo^[k] st).historyIndex = st.historyIndex - k ∧
      (undo^[k] st).strokes =
        (if k = 0 then st.strokes else st.history.getD (st.historyIndex - k) []) := by
  induction k with
  | zero => intro st _; simp
  | succ k ih =>
      intro st hk
      rw [Function.iterate_succ_apply']
      obtain ⟨h1, h2, h3⟩ := ih st (Nat.le_of_succ_le hk)
      have hpos : 0 < (undo^[k] st).historyIndex := by omega
      rw [undo_eq (undo^[k] st) hpos]
      refine ⟨?_, ?_, ?_⟩
      · simp [h1]
      · simp [h2]; omega
      · simp [h1, h2]
        congr 1

/-- Iterated `redo` walks the index forward without touching the
history, as long as it stays within range. -/
theorem redo_iter_fields (k : ℕ) :
    ∀ st : State, st.historyIndex + k < st.history.length →
      (redo^[k] st).history = st.history ∧
      (redo^[k] st).historyIndex = st.historyIndex + k ∧
      (redo^[k] st).strokes =
        (if k = 0 then st.strokes else st.history.getD (st.historyIndex + k) []) := by
  induction k with
  | zero => intro st _; simp
  | succ k ih =>
      intro st hk
      rw [Function.iterate_succ_apply']
      obtain ⟨h1, h2, h3⟩ := ih st (by omega)
      have hcond : ((redo^[k] st).historyIndex : ℤ) < ((redo^[k] st).history.length : ℤ) - 1 := by
        rw [h1, h2]; push_cast; omega
      rw [redo_eq (redo^[k] st) hcond]
      refine ⟨?_, ?_, ?_⟩
      · simp [h1]
      · simp [h2]; omega
      · simp [h1, h2, Nat.add_assoc]

/-- A concrete environment used to instantiate theorems on closed inputs
(any functions will do: the claims are proved for every environment). -/
def env0 : Env where
  cos := fun _ => 1
  sin := fun _ => 0
  atan2 := fun _ _ => 0
  measure := fun _ _ => 0

/-- A concrete pen stroke used by witnesses. -/
def penStroke1 : Stroke :=
  { id := "s1", type := SType.pen, points := [⟨0, 0⟩, ⟨1, 1⟩],
    color := "#2563eb", strokeWidth := 4 }

/-- A concrete committed-operation sequence used by witnesses. -/
def ops1 : List Op := [Op.addStroke penStroke1, Op.clear]

/-- C1: after any sequence of committed mutating operations (addStroke,
removing eraseAtPoint, finishDrag, finishResize, finishRotate,
deleteSelected, clear) from the initial state, `k` undos followed by `k`
redos (`k ≤ N`) restore the strokes array that was current before the
undos. -/
theorem undo_redo_round_trip (env : Env) (ops : List Op) (k : ℕ)
    (_hkind : ∀ op ∈ ops, historyCommitKind op = true)
    (hcommits : commitsFrom env initialState ops = true)
    (hk : k ≤ ops.length) :
    (redo^[k] (undo^[k] (runOps env initialState ops))).strokes =
      (runOps env initialState ops).strokes := by
  obtain ⟨hinv, hidx⟩ := runOps_inv env ops initialState hcommits initial_inv
  have hkidx : k ≤ (runOps env initialState ops).historyIndex := by
    rw [hidx]; simpa [initialState] using hk
  obtain ⟨u1, u2, u3⟩ := undo_iter_fields k (runOps env initialState ops) hkidx
  have hlen : (undo^[k] (runOps env initialState ops)).historyIndex + k <
      (undo^[k] (runOps env initialState ops)).history.length := by
    rw [u1, u2]
    have h1 := hinv.1
    omega
  obtain ⟨r1, r2, r3⟩ := redo_iter_fields k (undo^[k] (runOps env initialState ops)) hlen
  rcases Nat.eq_zero_or_pos k with hk0 | hk0
  · subst hk0
    simp
  · have hkne : k ≠ 0 := Nat.pos_iff_ne_zero.mp hk0
    rw [r3, if_neg hkne, u1, u2]
    have harith : (runOps env initialState ops).historyIndex - k + k =
        (runOps env initialState ops).historyIndex := by omega
    rw [harith]
    exact hinv.2

/-- Witness for C1 on a concrete run: one pen stroke committed, then a
clear, two undos and two redos. -/
theorem undo_redo_round_trip_witness :
    (redo^[2] (undo^[2] (runOps env0 initialState ops1))).strokes =
      (runOps env0 initialState ops1).strokes :=
  undo_redo_round_trip env0 ops1 2 (by decide) (by decide) (by decide)

/-- C2: every committed mutating operation truncates the history to the
prefix of length `historyIndex + 1`, appends exactly one new snapshot,
points `historyIndex` at the new last position, and leaves `canRedo`
false. -/
theorem commit_truncates_then_appends (env : Env) (op : Op) (st : State)
    (h : commits op st = true) :
    (step env op st).history =
        st.history.take (st.historyIndex + 1) ++ [(step env op st).strokes] ∧
      (step env op st).historyIndex = (step env op st).history.length - 1 ∧
      canRedo (step env op st) = false := by
  obtain ⟨h1, h2⟩ := commits_push env op st h
  refine ⟨h1, by omega, ?_⟩
  simp only [canRedo, decide_eq_false_iff_not, not_lt]
  omega

/-- The undo-then-commit state used by the C2 witness: one committed pen
stroke, then an undo (so a redo branch exists). -/
def c2state : State := undo (runOps env0 initialState [Op.addStroke penStroke1])

/-- Witness for C2: a fresh committed mutation after an undo discards the
redo branch on a concrete two-snapshot history. -/
theorem commit_truncates_then_appends_witness :
    commits Op.clear c2state = true ∧
      ((step env0 Op.clear c2state).history =
          c2state.history.take (c2state.historyIndex + 1) ++
            [(step env0 Op.clear c2state).strokes] ∧
        (step env0 Op.clear c2state).historyIndex =
          (step env0 Op.clear c2state).history.length - 1 ∧
        canRedo (step env0 Op.clear c2state) = false) :=
  ⟨by decide, commit_truncates_then_appends env0 Op.clear c2state (by decide)⟩

/-- Every exposed operation keeps the history index strictly inside the
history array. -/
theorem step_boundsInv (env : Env) (op : Op) (st : State)
    (h : st.historyIndex < st.history.length) :
    (step env op st).historyIndex < (step env op st).history.length := by
  cases op <;>
    simp only [step, setCurrentTool, setCurrentColor, addStroke, clearSelection, finishStroke,
      startShape, updateShape, finishShape, eraseAtPoint, selectStroke, selectMultiple,
      deleteSelected, startSelection, updateSelection, finishSelection, startDrag,
      updateDrag, finishDrag, startResize, updateResize, finishResize, startRotate, updateRotate,
      finishRotate, startTextEdit, updateText, finishTextEdit, setEditingText, undo, redo,
      newDocument, loadDocument, clear, truncPush] <;>
    (repeat' split) <;> simp_all <;> omega

/-- Bounds invariant along any run of exposed operations. -/
theorem runOps_boundsInv (env : Env) (ops : List Op) :
    ∀ st : State, st.historyIndex < st.history.length →
      (runOps env st ops).historyIndex < (runOps env st ops).history.length := by
  induction ops with
  | nil => intro st h; exact h
  | cons op ops ih =>
      intro st h
      exact ih (step env op st) (step_boundsInv env op st h)

/-- C3 counterexample: after `addStroke` followed by `selectStroke` (both
exposed operations), the strokes array carries a `selected` flag that the
current history snapshot does not, so `strokes = history[historyIndex]`
fails on a reachable state. -/
theorem strokes_history_sync_counterexample :
    ¬((runOps env0 initialState
          [Op.addStroke penStroke1, Op.selectStroke "s1" false]).history.getD
        (runOps env0 initialState
          [Op.addStroke penStroke1, Op.selectStroke "s1" false]).historyIndex [] =
      (runOps env0 initialState
        [Op.addStroke penStroke1, Op.selectStroke "s1" false]).strokes) := by
  decide

/-- C3 (amended): the index invariant `historyIndex < history.length`
holds for every state reachable through the exposed operations, and the
strokes array equals `history[historyIndex]` immediately after every
snapshot-pushing operation, every effective undo or redo, and every
document reset (`newDocument`/`loadDocument`; `clear` pushes a
snapshot); transient operations (selection flag updates, drag/resize/
rotate previews, live text updates) may leave the strokes array differing
from `history[historyIndex]` until the finishing commit. -/
theorem reachable_history_invariant (env : Env) :
    (∀ ops : List Op, (runOps env initialState ops).historyIndex <
        (runOps env initialState ops).history.length) ∧
    (∀ (op : Op) (st : State), commits op st = true →
        (step env op st).history.getD (step env op st).historyIndex [] =
          (step env op st).strokes) ∧
    (∀ st : State, 0 < st.historyIndex →
        (undo st).history.getD (undo st).historyIndex [] = (undo st).strokes) ∧
    (∀ st : State, (st.historyIndex : ℤ) < (st.history.length : ℤ) - 1 →
        (redo st).history.getD (redo st).historyIndex [] = (redo st).strokes) ∧
    (∀ st : State, (newDocument st).history.getD (newDocument st).historyIndex [] =
        (newDocument st).strokes) ∧
    (∀ (doc : WDoc) (st : State),
        (loadDocument doc st).history.getD (loadDocument doc st).historyIndex [] =
          (loadDocument doc st).strokes) := by
  refine ⟨?_, ?_, ?_, ?_, ?_, ?_⟩
  · intro ops
    exact runOps_boundsInv env ops initialState (by decide)
  · intro op st h
    obtain ⟨h1, h2⟩ := commits_push env op st h
    have hlen : (step env op st).historyIndex =
        (st.history.take (st.historyIndex + 1)).length := by
      rw [h1] at h2
      rw [List.length_append, List.length_singleton] at h2
      omega
    rw [h1, hlen]
    exact getD_concat _ _ _
  · intro st h
    rw [undo_eq st h]
  · intro st h
    rw [redo_eq st h]
  · intro st
    rfl
  · intro doc st
    rfl

/-- Witness for C3 (amended) at concrete inputs: a two-commit run, a
commit in a state with a live redo branch, an effective undo, an
effective redo, and a document load. -/
theorem reachable_history_invariant_witness :
    ((runOps env0 initialState ops1).historyIndex <
        (runOps env0 initialState ops1).history.length) ∧
      ((step env0 Op.clear c2state).history.getD
          (step env0 Op.clear c2state).historyIndex [] =
        (step env0 Op.clear c2state).strokes) ∧
      ((undo (runOps env0 initialState ops1)).history.getD
          (undo (runOps env0 initialState ops1)).historyIndex [] =
        (undo (runOps env0 initialState ops1)).strokes) ∧
      ((redo c2state).history.getD (redo c2state).historyIndex [] =
        (redo c2state).strokes) ∧
      ((loadDocument ⟨"d1", "doc", [penStroke1]⟩ initialState).history.getD
          (loadDocument ⟨"d1", "doc", [penStroke1]⟩ initialState).historyIndex [] =
        (loadDocument ⟨"d1", "doc", [penStroke1]⟩ initialState).strokes) :=
  ⟨(reachable_history_invariant env0).1 ops1,
   (reachable_history_invariant env0).2.1 Op.clear c2state (by decide),
   (reachable_history_invariant env0).2.2.1 (runOps env0 initialState ops1) (by decide),
   (reachable_history_invariant env0).2.2.2.1 c2state (by decide),
   (reachable_history_invariant env0).2.2.2.2.2 ⟨"d1", "doc", [penStroke1]⟩ initialState⟩

/-- C10: `screenToCanvas` and `canvasToScreen` are mutually inverse for
every point, fixed bounding rectangle, and view with nonzero zoom. -/
theorem screen_canvas_round_trip (p : Pt) (rect : DomRect) (st : CanvasView)
    (h : st.zoom ≠ 0) :
    screenToCanvas (canvasToScreen p.x p.y rect st).x (canvasToScreen p.x p.y rect st).y
        rect st = p ∧
      canvasToScreen (screenToCanvas p.x p.y rect st).x (screenToCanvas p.x p.y rect st).y
        rect st = p := by
  cases p with
  | mk px py =>
      constructor
      · simp only [screenToCanvas, canvasToScreen, Pt.mk.injEq]
        constructor <;> field_simp
      · simp only [screenToCanvas, canvasToScreen, Pt.mk.injEq]
        constructor <;> field_simp

/-- Witness for C10 at `p = (3, 4)`, `rect = (1, 2)`,
`view = (zoom 2, pan (5, 7))`. -/
theorem screen_canvas_round_trip_witness :
    screenToCanvas (canvasToScreen 3 4 ⟨1, 2⟩ ⟨2, 5, 7⟩).x
        (canvasToScreen 3 4 ⟨1, 2⟩ ⟨2, 5, 7⟩).y ⟨1, 2⟩ ⟨2, 5, 7⟩ = (⟨3, 4⟩ : Pt) ∧
      canvasToScreen (screenToCanvas 3 4 ⟨1, 2⟩ ⟨2, 5, 7⟩).x
        (screenToCanvas 3 4 ⟨1, 2⟩ ⟨2, 5, 7⟩).y ⟨1, 2⟩ ⟨2, 5, 7⟩ = (⟨3, 4⟩ : Pt) :=
  screen_canvas_round_trip ⟨3, 4⟩ ⟨1, 2⟩ ⟨2, 5, 7⟩ (by decide)

/-- C6: for a shape stroke with both diagonal endpoints, `applyResize`
moves exactly the coordinates of the handle mapping
(`nw→(sx,sy)`, `ne→(ex,sy)`, `sw→(sx,ey)`, `se→(ex,ey)`, `n→sy`, `s→ey`,
`w→sx`, `e→ex`, each by the corresponding delta; any other handle moves
nothing) and leaves all other fields unchanged. -/
theorem applyResize_shape_mapping (stroke : Stroke) (handle : String) (dx dy : ℚ)
    (sp ep : Pt)
    (htype : stroke.type = SType.rectangle ∨ stroke.type = SType.ellipse ∨
      stroke.type = SType.line)
    (hsp : stroke.startPoint = some sp) (hep : stroke.endPoint = some ep) :
    applyResize stroke handle dx dy =
      { stroke with
        startPoint := some (resizeShape handle dx dy sp ep).1
        endPoint := some (resizeShape handle dx dy sp ep).2 } := by
  have hnt : ¬(stroke.type = SType.text) := by
    rcases htype with ht | ht | ht <;> rw [ht] <;> intro hc <;> cases hc
  simp only [applyResize, hnt, if_false, hsp, hep, resizeShape]

/-- A concrete rectangle used by the C6 witness. -/
def rectStroke1 : Stroke :=
  { id := "r1", type := SType.rectangle, points := [], color := "#2563eb",
    strokeWidth := 2, startPoint := some ⟨0, 0⟩, endPoint := some ⟨100, 50⟩ }

/-- Witness for C6, including the spec scenario: rectangle
`(0,0)-(100,50)` resized by handle `se` with `dx=10, dy=20` gets the new
diagonal `(0,0)-(110,70)` (hence bounds `(0,0)-(110,70)`). -/
theorem applyResize_shape_mapping_witness :
    applyResize rectStroke1 "se" 10 20 =
        { rectStroke1 with startPoint := some ⟨0, 0⟩, endPoint := some ⟨110, 70⟩ } ∧
      calculateBounds env0 (applyResize rectStroke1 "se" 10 20) = ⟨0, 0, 110, 70⟩ := by
  have h := applyResize_shape_mapping rectStroke1 "se" 10 20 ⟨0, 0⟩ ⟨100, 50⟩
    (Or.inl rfl) rfl rfl
  rw [h]
  constructor
  · simp [resizeShape, rectStroke1]
    norm_num
  · simp [calculateBounds, resizeShape, rectStroke1, jsOr]
    norm_num

/-- The claim's per-type erase retention test (spec side of C7): text by
anchor distance, shapes by the expanded box, pen by sample-point
distance. -/
def specEraseRetain (x y radius : ℚ) (s : Stroke) : Bool :=
  match s.type with
  | SType.text => !(sqrtLe (distSq s.points.headI ⟨x, y⟩) radius)
  | SType.pen => !(s.points.any fun p => sqrtLe (distSq p ⟨x, y⟩) radius)
  | _ =>
    match s.startPoint, s.endPoint with
    | some sp, some ep =>
      decide (¬(min sp.x ep.x - radius ≤ x ∧ x ≤ max sp.x ep.x + radius ∧
        min sp.y ep.y - radius ≤ y ∧ y ≤ max sp.y ep.y + radius))
    | _, _ => true

/-- On well-formed strokes the code's retention test is the per-type test
of the claim. -/
theorem eraseKeep_eq_spec (x y radius : ℚ) (s : Stroke) (h : wellFormed s = true) :
    eraseKeep x y radius s = specEraseRetain x y radius s := by
  cases hty : s.type <;> simp only [wellFormed, hty] at h <;>
    simp only [eraseKeep, specEraseRetain, hty]
  case text =>
      simp only [decide_eq_true_eq] at h
      cases hp : s.points with
      | nil => rw [hp] at h; simp at h
      | cons p t => simp [List.headI]

/-- Removing at least one element makes the filtered list strictly
shorter. -/
theorem filter_length_lt_of_exists {α : Type} (p : α → Bool) (l : List α)
    (h : ∃ a ∈ l, p a = false) : (l.filter p).length < l.length := by
  induction l with
  | nil => simp at h
  | cons a t ih =>
      rcases h with ⟨b, hb, hpb⟩
      rcases List.mem_cons.mp hb with hb | hb
      · subst hb
        simp [List.filter_cons, hpb]
        have := List.length_filter_le p t
        omega
      · by_cases hpa : p a
        · simp [List.filter_cons, hpa]
          exact ih ⟨b, hb, hpb⟩
        · simp [List.filter_cons, hpa]
          have := List.length_filter_le p t
          omega

/-- C7: `eraseAtPoint` removes exactly the strokes failing their per-type
retention test; it pushes exactly one snapshot (index advancing by one)
when at least one stroke is removed, and leaves the state untouched
otherwise. -/
theorem eraseAtPoint_characterization (x y radius : ℚ) (st : State)
    (hwf : ∀ s ∈ st.strokes, wellFormed s = true)
    (hbound : st.historyIndex < st.history.length) :
    (eraseAtPoint x y radius st).strokes =
        st.strokes.filter (specEraseRetain x y radius) ∧
      ((∃ s ∈ st.strokes, specEraseRetain x y radius s = false) →
        (eraseAtPoint x y radius st).history =
            st.history.take (st.historyIndex + 1) ++
              [st.strokes.filter (specEraseRetain x y radius)] ∧
          (eraseAtPoint x y radius st).historyIndex = st.historyIndex + 1) ∧
      ((¬∃ s ∈ st.strokes, specEraseRetain x y radius s = false) →
        eraseAtPoint x y radius st = st) := by
  have hfe : st.strokes.filter (eraseKeep x y radius) =
      st.strokes.filter (specEraseRetain x y radius) :=
    List.filter_congr fun s hs => eraseKeep_eq_spec x y radius s (hwf s hs)
  by_cases hex : ∃ s ∈ st.strokes, specEraseRetain x y radius s = false
  · have hlt : (st.strokes.filter (eraseKeep x y radius)).length < st.strokes.length := by
      rw [hfe]; exact filter_length_lt_of_exists _ _ hex
    have hne : (st.strokes.filter (eraseKeep x y radius)).length ≠ st.strokes.length := by
      omega
    have hstepeq : eraseAtPoint x y radius st =
        { st with
          strokes := st.strokes.filter (eraseKeep x y radius)
          history := truncPush st.history st.historyIndex
            (st.strokes.filter (eraseKeep x y radius))
          historyIndex := (truncPush st.history st.historyIndex
            (st.strokes.filter (eraseKeep x y radius))).length - 1
          isModified := true } := by
      simp only [eraseAtPoint]
      rw [if_pos hne]
    rw [hstepeq]
    refine ⟨hfe, fun _ => ⟨?_, ?_⟩, fun hc => absurd hex hc⟩
    · simp only [truncPush, hfe]
    · simp only [truncPush, List.length_append, List.length_take, List.length_singleton]
      omega
  · have hall : ∀ s ∈ st.strokes, specEraseRetain x y radius s = true := by
      intro s hs
      by_contra hc
      exact hex ⟨s, hs, by simpa using hc⟩
    have hself : st.strokes.filter (specEraseRetain x y radius) = st.strokes :=
      List.filter_eq_self.mpr hall
    have heq : (st.strokes.filter (eraseKeep x y radius)).length = st.strokes.length := by
      rw [hfe, hself]
    have hstepeq : eraseAtPoint x y radius st = st := by
      simp only [eraseAtPoint]
      rw [if_neg (by omega)]
    refine ⟨?_, fun hc => absurd hc hex, fun _ => hstepeq⟩
    rw [hstepeq, hself]

/-- A pen stroke with a sample point at `(20, 20)`, for the eraser
scenario. -/
def penStroke2 : Stroke :=
  { id := "s2", type := SType.pen, points := [⟨20, 20⟩],
    color := "#2563eb", strokeWidth := 4 }

/-- The one-stroke state the C7 witness erases from. -/
def eraseState : State := runOps env0 initialState [Op.addStroke penStroke2]

/-- Witness for C7 on the spec's eraser scenario: a pen stroke with a
point at `(20,20)`, erased at `(20,20)` with radius 10, is removed with
exactly one history push. -/
theorem eraseAtPoint_characterization_witness :
    (eraseAtPoint 20 20 10 eraseState).strokes =
        eraseState.strokes.filter (specEraseRetain 20 20 10) ∧
      (eraseAtPoint 20 20 10 eraseState).historyIndex = eraseState.historyIndex + 1 :=
  ⟨(eraseAtPoint_characterization 20 20 10 eraseState (by decide) (by decide)).1,
   ((eraseAtPoint_characterization 20 20 10 eraseState (by decide) (by decide)).2.1
      ⟨penStroke2, by decide,
        by norm_num [specEraseRetain, penStroke2, distSq, sqrtLe]⟩).2⟩

/-- On well-formed strokes the hit-test branch logic agrees with the
claim's per-type region. -/
theorem strokeHit_eq_spec (env : Env) (p : Pt) (s : Stroke) (h : wellFormed s = true) :
    strokeHit (calculateBounds env) p s = specHitRegion env p s := by
  obtain ⟨i, ty, pts, c, w, sp0, ep0, tx, fs, mm, sel, rot⟩ := s
  cases ty <;> simp only [wellFormed] at h
  case pen =>
      simp only [Bool.and_eq_true, decide_eq_true_eq, Option.isNone_iff_eq_none] at h
      obtain ⟨⟨hp, hs⟩, he⟩ := h
      subst hs
      subst he
      simp [strokeHit, specHitRegion, hp]
  case text =>
      simp only [decide_eq_true_eq] at h
      have hp : pts ≠ [] := by
        intro hc
        rw [hc] at h
        simp at h
      simp [strokeHit, specHitRegion, hp]
  all_goals
    simp only [Bool.and_eq_true, Option.isSome_iff_exists] at h
    obtain ⟨⟨sp, hsp⟩, ep, hep⟩ := h
    subst hsp
    subst hep
    simp [strokeHit, specHitRegion]

/-- C5: `getStrokeAtPoint` returns the stroke of greatest array index
whose generous per-type hit region contains the point (computed bounds
for text, start/end box expanded by 12 for shapes, sample-point distance
at most `max(14, strokeWidth+10)` for pen), and `none` when no region
contains it; in particular, of two overlapping strokes it returns the one
later in the array. -/
theorem getStrokeAtPoint_topmost (env : Env) (p : Pt) (scene : List Stroke)
    (hwf : ∀ s ∈ scene, wellFormed s = true) :
    getStrokeAtPoint p scene (calculateBounds env) =
      (scene.filter (specHitRegion env p)).getLast? := by
  have hcong : scene.filter (specHitRegion env p) =
      scene.filter (strokeHit (calculateBounds env) p) :=
    List.filter_congr fun s hs => (strokeHit_eq_spec env p s (hwf s hs)).symm
  rw [hcong, ← find?_reverse_eq_getLast?_filter]
  rfl

/-- Two overlapping rectangles used by the C5 witness. -/
def rectA : Stroke :=
  { id := "a", type := SType.rectangle, points := [], color := "#111111",
    strokeWidth := 2, startPoint := some ⟨0, 0⟩, endPoint := some ⟨10, 10⟩ }

/-- Second (topmost) overlapping rectangle for the C5 witness. -/
def rectB : Stroke :=
  { id := "b", type := SType.rectangle, points := [], color := "#222222",
    strokeWidth := 2, startPoint := some ⟨5, 5⟩, endPoint := some ⟨15, 15⟩ }

/-- Witness for C5: both rectangles contain `(7, 7)`; the hit test
returns the later one. -/
theorem getStrokeAtPoint_topmost_witness :
    getStrokeAtPoint ⟨7, 7⟩ [rectA, rectB] (calculateBounds env0) =
        ([rectA, rectB].filter (specHitRegion env0 ⟨7, 7⟩)).getLast? ∧
      ([rectA, rectB].filter (specHitRegion env0 ⟨7, 7⟩)).getLast? = some rectB := by
  refine ⟨getStrokeAtPoint_topmost env0 ⟨7, 7⟩ [rectA, rectB] (by decide), ?_⟩
  norm_num [specHitRegion, rectA, rectB, List.filter]

/-- A `foldl max` never goes below its seed. -/
theorem le_foldl_max (l : List ℚ) (a : ℚ) : a ≤ l.foldl max a := by
  induction l generalizing a with
  | nil => exact le_refl a
  | cons x t ih => exact le_trans (le_max_left a x) (ih (max a x))

/-- The measured box of an unrotated text stroke: anchor-based, padded by
2, with width at least 20 and height at least one line height. -/
theorem calculateBounds_text_unrot (env : Env) (s : Stroke)
    (hty : s.type = SType.text) (hp : s.points ≠ [])
    (hrot : jsOr s.rotation 0 = 0) :
    ∃ w h : ℚ, 20 ≤ w ∧ jsOr s.fontSize 16 * (6 / 5) ≤ h ∧
      calculateBounds env s =
        ⟨s.points.headI.x - 2, s.points.headI.y - 2,
         s.points.headI.x + w + 2, s.points.headI.y + h + 2⟩ := by
  refine ⟨(((s.text.getD "").splitOn "\n").map
      (env.measure (jsOr s.fontSize 16))).foldl max 20,
    max (jsOr s.fontSize 16 * (6 / 5))
      (jsOr s.fontSize 16 * (6 / 5) * (((s.text.getD "").splitOn "\n").length : ℚ)),
    le_foldl_max _ _, le_max_left _ _, ?_⟩
  simp only [calculateBounds, hty, hrot]
  rw [if_pos ⟨trivial, hp⟩]
  simp

/-- The marquee membership description of the claim, spec side of C8:
anchor-inside for text, any-point-inside for pen, bbox overlap for
shapes. -/
def specClaimBoxMember (minX maxX minY maxY : ℚ) (s : Stroke) : Bool :=
  match s.type with
  | SType.text =>
    decide (minX ≤ s.points.headI.x ∧ s.points.headI.x ≤ maxX ∧
      minY ≤ s.points.headI.y ∧ s.points.headI.y ≤ maxY)
  | SType.pen =>
    s.points.any fun p => decide (minX ≤ p.x ∧ p.x ≤ maxX ∧ minY ≤ p.y ∧ p.y ≤ maxY)
  | _ =>
    match s.startPoint, s.endPoint with
    | some sp, some ep =>
      decide (min sp.x ep.x ≤ maxX ∧ max sp.x ep.x ≥ minX ∧
        min sp.y ep.y ≤ maxY ∧ max sp.y ep.y ≥ minY)
    | _, _ => false

/-- The effective marquee membership of the store's `finishSelection`,
written per type (amended spec side of C8): computed-bounds overlap for
text, any-point-inside for pen, bbox overlap for shapes. -/
def specMarqueeMember (env : Env) (minX maxX minY maxY : ℚ) (s : Stroke) : Bool :=
  match s.type with
  | SType.text =>
    let b := calculateBounds env s
    decide (b.minX ≤ maxX ∧ b.maxX ≥ minX ∧ b.minY ≤ maxY ∧ b.maxY ≥ minY)
  | SType.pen =>
    s.points.any fun p => decide (minX ≤ p.x ∧ p.x ≤ maxX ∧ minY ≤ p.y ∧ p.y ≤ maxY)
  | _ =>
    match s.startPoint, s.endPoint with
    | some sp, some ep =>
      decide (min sp.x ep.x ≤ maxX ∧ max sp.x ep.x ≥ minX ∧
        min sp.y ep.y ≤ maxY ∧ max sp.y ep.y ≥ minY)
    | _, _ => false

/-- On well-formed strokes the branch logic of `finishSelection` agrees
with the per-type description. -/
theorem finishSelectionPred_eq_spec (env : Env) (minX maxX minY maxY : ℚ) (s : Stroke)
    (h : wellFormed s = true) :
    finishSelectionPred env minX maxX minY maxY s =
      specMarqueeMember env minX maxX minY maxY s := by
  obtain ⟨i, ty, pts, c, w, sp0, ep0, tx, fs, mm, sel, rot⟩ := s
  cases ty <;> simp only [wellFormed] at h
  case pen =>
      simp only [Bool.and_eq_true, decide_eq_true_eq, Option.isNone_iff_eq_none] at h
      obtain ⟨⟨hp, hs⟩, he⟩ := h
      subst hs
      subst he
      simp [finishSelectionPred, specMarqueeMember, hp]
  case text =>
      simp only [decide_eq_true_eq] at h
      have hp : pts ≠ [] := by
        intro hc
        rw [hc] at h
        simp at h
      simp [finishSelectionPred, specMarqueeMember, hp]
  all_goals
    simp only [Bool.and_eq_true, Option.isSome_iff_exists] at h
    obtain ⟨⟨sp, hsp⟩, ep, hep⟩ := h
    subst hsp
    subst hep
    simp [finishSelectionPred, specMarqueeMember]

/-- A text stroke anchored just above the marquee box. -/
def textStrokeC : Stroke :=
  { id := "t1", type := SType.text, points := [⟨10, -10⟩], color := "#333333",
    strokeWidth := 4, text := some "A", fontSize := some 16 }

/-- The state right before marquee finish in the C8 counterexample. -/
def marqueeTextState : State :=
  runOps env0 initialState
    [Op.addStroke textStrokeC, Op.startSelection ⟨-5, -5⟩, Op.updateSelection ⟨20, 20⟩]

/-- C8 counterexample: on marquee finish the store selects a text stroke
whose computed bounds overlap the box even though its anchor lies outside
it, while the claim's anchor-inside membership selects nothing. -/
theorem marquee_text_membership_counterexample :
    (finishSelection env0 marqueeTextState).selectedStrokes = ["t1"] ∧
      (marqueeTextState.strokes.filter
        (specClaimBoxMember (-5) 20 (-5) 20)).map (·.id) = [] := by
  have hbox : marqueeTextState.selectionBox = some ⟨-5, -5, 20, 20⟩ := by decide
  have hstrokes : marqueeTextState.strokes = [textStrokeC] := by decide
  obtain ⟨w, h, hw, hh, hb⟩ :=
    calculateBounds_text_unrot env0 textStrokeC rfl (by decide) (by decide)
  have hfs : jsOr textStrokeC.fontSize 16 = 16 := by norm_num [textStrokeC, jsOr]
  rw [hfs] at hh
  have hpred : finishSelectionPred env0 (-5) 20 (-5) 20 textStrokeC = true := by
    simp only [finishSelectionPred]
    rw [if_pos ⟨rfl, by decide⟩, hb]
    simp only [decide_eq_true_eq, textStrokeC, List.headI]
    norm_num
    constructor
    · linarith
    · linarith
  constructor
  · simp only [finishSelection, hbox, hstrokes]
    norm_num [hpred, selectMultiple, List.filter_cons, List.filter_nil]
    rfl
  · rw [hstrokes]
    norm_num [specClaimBoxMember, textStrokeC, List.filter]

/-- C8 (amended): on marquee finish (an active selection box), the
selected ids are exactly the strokes passing the per-type membership
test with text measured by its computed bounds overlapping the
normalized box (not by its anchor point), pen by some sample point
inside, and shapes by bbox overlap. -/
theorem finishSelection_membership (env : Env) (st : State) (box : SelBox)
    (hbox : st.selectionBox = some box)
    (hwf : ∀ s ∈ st.strokes, wellFormed s = true) :
    (finishSelection env st).selectedStrokes =
      (st.strokes.filter (specMarqueeMember env (min box.startX box.endX)
        (max box.startX box.endX) (min box.startY box.endY)
        (max box.startY box.endY))).map (·.id) := by
  have hcong : st.strokes.filter (finishSelectionPred env (min box.startX box.endX)
      (max box.startX box.endX) (min box.startY box.endY) (max box.startY box.endY)) =
      st.strokes.filter (specMarqueeMember env (min box.startX box.endX)
        (max box.startX box.endX) (min box.startY box.endY) (max box.startY box.endY)) :=
    List.filter_congr fun s hs => finishSelectionPred_eq_spec env _ _ _ _ s (hwf s hs)
  simp only [finishSelection, hbox, selectMultiple, hcong]

/-- First scenario rectangle for the C8 witness, bounds (0,0)-(10,10). -/
def rectD1 : Stroke :=
  { id := "d1", type := SType.rectangle, points := [], color := "#444444",
    strokeWidth := 2, startPoint := some ⟨0, 0⟩, endPoint := some ⟨10, 10⟩ }

/-- Second scenario rectangle for the C8 witness, bounds
(100,100)-(110,110). -/
def rectD2 : Stroke :=
  { id := "d2", type := SType.rectangle, points := [], color := "#555555",
    strokeWidth := 2, startPoint := some ⟨100, 100⟩, endPoint := some ⟨110, 110⟩ }

/-- The pre-marquee-finish state of the C8 witness scenario. -/
def marqueeShapeState : State :=
  runOps env0 initialState
    [Op.addStroke rectD1, Op.addStroke rectD2,
     Op.startSelection ⟨-5, -5⟩, Op.updateSelection ⟨20, 20⟩]

/-- Witness for C8 (amended) on the spec scenario: strokes at
(0,0)-(10,10) and (100,100)-(110,110), marquee (-5,-5)-(20,20) selects
only the first. -/
theorem finishSelection_membership_witness :
    (finishSelection env0 marqueeShapeState).selectedStrokes =
        (marqueeShapeState.strokes.filter (specMarqueeMember env0
          (min (-5 : ℚ) 20) (max (-5 : ℚ) 20) (min (-5 : ℚ) 20)
          (max (-5 : ℚ) 20))).map (·.id) ∧
      (finishSelection env0 marqueeShapeState).selectedStrokes = ["d1"] := by
  have h := finishSelection_membership env0 marqueeShapeState ⟨-5, -5, 20, 20⟩
    (by decide) (by decide)
  refine ⟨h, ?_⟩
  rw [h]
  have hstrokes : marqueeShapeState.strokes = [rectD1, rectD2] := by decide
  rw [hstrokes]
  have h1 : specMarqueeMember env0 (min (-5 : ℚ) 20) (max (-5 : ℚ) 20)
      (min (-5 : ℚ) 20) (max (-5 : ℚ) 20) rectD1 = true := by
    norm_num [specMarqueeMember, rectD1]
  have h2 : specMarqueeMember env0 (min (-5 : ℚ) 20) (max (-5 : ℚ) 20)
      (min (-5 : ℚ) 20) (max (-5 : ℚ) 20) rectD2 = false := by
    norm_num [specMarqueeMember, rectD2]
  simp [List.filter_cons, h1, h2]
  rfl

/-- The selection mirror invariant: a stroke's `selected` flag agrees
with membership of its id in `selectedStrokes`, and every selected id
belongs to some stroke of the scene (so the two id sets coincide). -/
def MirrorInv (st : State) : Prop :=
  (∀ s ∈ st.strokes, (s.selected = true ↔ s.id ∈ st.selectedStrokes)) ∧
  (∀ i ∈ st.selectedStrokes, ∃ s ∈ st.strokes, s.id = i)

/-- The duplicate-selection state of the C9 counterexample. -/
def dupSelState : State :=
  runOps env0 initialState
    [Op.addStroke penStroke1, Op.selectStroke "s1" false, Op.selectStroke "s1" true]

/-- C9 counterexample: shift-clicking an already selected stroke
(`selectStroke` with `addToSelection`) duplicates its id in
`selectedStrokes`, so the no-duplicates half of the claim fails. -/
theorem selection_duplicate_counterexample :
    dupSelState.selectedStrokes = ["s1", "s1"] ∧
      ¬ dupSelState.selectedStrokes.Nodup := by
  decide

/-- C9 (amended): every selection-mutating operation keeps the flagged-id
set equal to the `selectedStrokes` id set, provided the ids passed in
belong to strokes of the scene (`selectStroke`/`selectMultiple`) and the
invariant held before (`selectStroke`, `deleteSelected`,
`finishSelection`); `selectedStrokes` may however contain duplicates. -/
theorem selection_mirror_sets (env : Env) :
    (∀ (st : State) (id : String) (add : Bool), MirrorInv st →
        (∃ s ∈ st.strokes, s.id = id) → MirrorInv (selectStroke id add st)) ∧
    (∀ (st : State) (ids : List String),
        (∀ i ∈ ids, ∃ s ∈ st.strokes, s.id = i) → MirrorInv (selectMultiple ids st)) ∧
    (∀ st : State, MirrorInv (clearSelection st)) ∧
    (∀ st : State, MirrorInv st → MirrorInv (deleteSelected st)) ∧
    (∀ st : State, MirrorInv st → MirrorInv (finishSelection env st)) := by
  refine ⟨?_, ?_, ?_, ?_, ?_⟩
  · intro st id add hm hid
    constructor
    · intro s' hs'
      simp only [selectStroke, List.mem_map] at hs'
      obtain ⟨s, _, rfl⟩ := hs'
      simp [selectStroke, List.elem_iff]
    · intro i hi
      simp only [selectStroke] at hi ⊢
      have hwit : ∃ s ∈ st.strokes, s.id = i := by
        by_cases ha : add = true
        · rw [if_pos ha] at hi
          rcases List.mem_append.mp hi with hi | hi
          · exact hm.2 i hi
          · rw [List.mem_singleton] at hi
            subst hi
            exact hid
        · rw [if_neg ha] at hi
          rw [List.mem_singleton] at hi
          subst hi
          exact hid
      obtain ⟨s, hs, rfl⟩ := hwit
      exact ⟨_, List.mem_map_of_mem _ hs, rfl⟩
  · intro st ids hids
    constructor
    · intro s' hs'
      simp only [selectMultiple, List.mem_map] at hs'
      obtain ⟨s, _, rfl⟩ := hs'
      simp [selectMultiple, List.elem_iff]
    · intro i hi
      simp only [selectMultiple] at hi ⊢
      obtain ⟨s, hs, rfl⟩ := hids i hi
      exact ⟨_, List.mem_map_of_mem _ hs, rfl⟩
  · intro st
    constructor
    · intro s' hs'
      simp only [clearSelection, List.mem_map] at hs'
      obtain ⟨s, _, rfl⟩ := hs'
      simp [clearSelection]
    · intro i hi
      simp [clearSelection] at hi
  · intro st hm
    constructor
    · intro s' hs'
      simp only [deleteSelected, List.mem_filter, Bool.not_eq_true'] at hs'
      obtain ⟨hs, hcon⟩ := hs'
      simp only [deleteSelected, List.not_mem_nil, iff_false]
      intro hsel
      have hmem := (hm.1 s' hs).mp hsel
      simp at hcon
      exact hcon hmem
    · intro i hi
      simp [deleteSelected] at hi
  · intro st hm
    cases hbox : st.selectionBox with
    | none =>
        constructor
        · intro s hs
          simp only [finishSelection, hbox] at hs ⊢
          exact hm.1 s hs
        · intro i hi
          simp only [finishSelection, hbox] at hi ⊢
          exact hm.2 i hi
    | some box =>
        constructor
        · intro s' hs'
          simp only [finishSelection, hbox, selectMultiple, List.mem_map] at hs'
          obtain ⟨s, _, rfl⟩ := hs'
          simp [finishSelection, hbox, selectMultiple, List.elem_iff]
        · intro i hi
          simp only [finishSelection, hbox, selectMultiple, List.mem_map,
            List.mem_filter] at hi
          obtain ⟨s, ⟨hs, _⟩, rfl⟩ := hi
          simp only [finishSelection, hbox, selectMultiple]
          exact ⟨_, List.mem_map_of_mem _ hs, rfl⟩

/-- Witness for C9 (amended): concrete `selectStroke` and
`clearSelection` calls on a one-stroke scene keep the mirror sets
synchronized. -/
theorem selection_mirror_sets_witness :
    MirrorInv (selectStroke "s1" false (runOps env0 initialState
        [Op.addStroke penStroke1])) ∧
      MirrorInv (clearSelection (runOps env0 initialState
        [Op.addStroke penStroke1])) :=
  ⟨(selection_mirror_sets env0).1 (runOps env0 initialState [Op.addStroke penStroke1])
      "s1" false (by simp only [MirrorInv]; decide) (by decide),
   (selection_mirror_sets env0).2.2.1 (runOps env0 initialState
      [Op.addStroke penStroke1])⟩

/-- The min/max box of a shape's two diagonal endpoints. -/
def shapeMinMaxBox (sp ep : Pt) : Bounds :=
  ⟨min sp.x ep.x, min sp.y ep.y, max sp.x ep.x, max sp.y ep.y⟩

/-- Spec side of C4: the axis-aligned box enclosing the four corners of
`u` after rotating them about `u`'s own center. -/
def rotCornersBounds (env : Env) (angle : ℚ) (u : Bounds) : Bounds :=
  let cx := (u.minX + u.maxX) / 2
  let cy := (u.minY + u.maxY) / 2
  ptsBox ((boxCorners u).map fun q => rotatePoint env q.x q.y cx cy angle)

/-- What the code actually does for a rotated pen stroke: rotate the
sample points themselves about the unrotated point-box center and bound
those. -/
def rotPointsBounds (env : Env) (angle : ℚ) (ps : List Pt) : Bounds :=
  let u := ptsBox ps
  let cx := (u.minX + u.maxX) / 2
  let cy := (u.minY + u.maxY) / 2
  ptsBox (ps.map fun p => rotatePoint env p.x p.y cx cy angle)

/-- An environment whose cosine/sine stand for an angle with
`cos θ = 3/5`, `sin θ = 4/5` (a point on the unit circle, θ ≈ 0.927). -/
def envC : Env where
  cos := fun _ => 3 / 5
  sin := fun _ => 4 / 5
  atan2 := fun _ _ => 0
  measure := fun _ _ => 0

/-- A rotated three-point pen stroke. -/
def penStroke3 : Stroke :=
  { id := "p3", type := SType.pen, points := [⟨0, 0⟩, ⟨10, 0⟩, ⟨0, 10⟩],
    color := "#2563eb", strokeWidth := 4, rotation := some 1 }

/-- Branch evaluation of `calculateBounds` on a well-formed rotated pen
stroke: it bounds the rotated sample points. -/
theorem calculateBounds_pen_rot (env : Env) (s : Stroke) (hty : s.type = SType.pen)
    (hpts : s.points ≠ []) (hsp : s.startPoint = none) (hep : s.endPoint = none)
    (hrot : jsOr s.rotation 0 ≠ 0) :
    calculateBounds env s = rotPointsBounds env (jsOr s.rotation 0) s.points := by
  obtain ⟨i, ty, pts, c, w, sp0, ep0, tx, fs, mm, sel, rot⟩ := s
  subst hty
  subst hsp
  subst hep
  simp only at hpts hrot
  simp [calculateBounds, rotPointsBounds, hrot, hpts]

/-- Branch evaluation of `calculateBounds` on a well-formed unrotated pen
stroke: the sample-point box. -/
theorem calculateBounds_pen_unrot (env : Env) (s : Stroke) (hty : s.type = SType.pen)
    (hpts : s.points ≠ []) (hsp : s.startPoint = none) (hep : s.endPoint = none)
    (hrot : jsOr s.rotation 0 = 0) :
    calculateBounds env s = ptsBox s.points := by
  obtain ⟨i, ty, pts, c, w, sp0, ep0, tx, fs, mm, sel, rot⟩ := s
  subst hty
  subst hsp
  subst hep
  simp only at hpts hrot
  simp [calculateBounds, hrot, hpts]

/-- Branch evaluation of `calculateBounds` on a shape stroke. -/
theorem calculateBounds_shape (env : Env) (s : Stroke) (sp ep : Pt)
    (hty : s.type = SType.rectangle ∨ s.type = SType.ellipse ∨ s.type = SType.line)
    (hsp : s.startPoint = some sp) (hep : s.endPoint = some ep) :
    calculateBounds env s =
      (if jsOr s.rotation 0 = 0 then shapeMinMaxBox sp ep
       else rotCornersBounds env (jsOr s.rotation 0) (shapeMinMaxBox sp ep)) := by
  obtain ⟨i, ty, pts, c, w, sp0, ep0, tx, fs, mm, sel, rot⟩ := s
  subst hsp
  subst hep
  have hnt : ty ≠ SType.text := by
    rcases hty with h | h | h <;> simp only at h <;> subst h <;> intro hc <;> cases hc
  by_cases hrot : jsOr rot 0 = 0
  · simp [calculateBounds, shapeMinMaxBox, hnt, hrot]
  · simp [calculateBounds, shapeMinMaxBox, rotCornersBounds, boxCorners, hnt, hrot]

/-- C4 counterexample: for a rotated pen stroke the code bounds the
rotated sample points, not the rotated corners of the unrotated box — at
`cos θ = 3/5, sin θ = 4/5` the two boxes differ (`maxY` 6 versus 12). -/
theorem rotated_pen_bounds_counterexample :
    calculateBounds envC penStroke3 = ⟨-2, -2, 12, 6⟩ ∧
      rotCornersBounds envC (jsOr penStroke3.rotation 0) (ptsBox penStroke3.points) =
        ⟨-2, -2, 12, 12⟩ ∧
      calculateBounds envC penStroke3 ≠
        rotCornersBounds envC (jsOr penStroke3.rotation 0) (ptsBox penStroke3.points) := by
  have hrot1 : jsOr penStroke3.rotation 0 = 1 := by norm_num [penStroke3, jsOr]
  have h0 := calculateBounds_pen_rot envC penStroke3 rfl (by decide) rfl rfl
    (by rw [hrot1]; norm_num)
  rw [hrot1] at h0
  have h1 : rotPointsBounds envC 1 penStroke3.points = ⟨-2, -2, 12, 6⟩ := by
    norm_num [rotPointsBounds, ptsBox, rotatePoint, envC, penStroke3, List.foldl]
  have h2 : rotCornersBounds envC 1 (ptsBox penStroke3.points) = ⟨-2, -2, 12, 12⟩ := by
    norm_num [rotCornersBounds, boxCorners, ptsBox, rotatePoint, envC, penStroke3,
      List.foldl]
  rw [hrot1]
  refine ⟨h0.trans h1, h2, ?_⟩
  rw [h0.trans h1, h2]
  intro hc
  cases hc

/-- C4 (amended): with `rotation = 0`, `calculateBounds` returns the
min/max start/end box for shapes and the sample-point box for pen; with
`rotation ≠ 0` it returns, for shapes, the box of the unrotated box's
four corners rotated about the box's own center, and, for pen strokes,
the box of the sample points themselves rotated about the unrotated
point-box center (not the rotated-corners box). -/
theorem calculateBounds_shape_pen (env : Env) (s : Stroke) :
    ((s.type = SType.rectangle ∨ s.type = SType.ellipse ∨ s.type = SType.line) →
      ∀ sp ep, s.startPoint = some sp → s.endPoint = some ep →
        calculateBounds env s =
          (if jsOr s.rotation 0 = 0 then shapeMinMaxBox sp ep
           else rotCornersBounds env (jsOr s.rotation 0) (shapeMinMaxBox sp ep))) ∧
    (s.type = SType.pen → s.points ≠ [] → s.startPoint = none → s.endPoint = none →
      calculateBounds env s =
        (if jsOr s.rotation 0 = 0 then ptsBox s.points
         else rotPointsBounds env (jsOr s.rotation 0) s.points)) := by
  constructor
  · intro hty sp ep hsp hep
    exact calculateBounds_shape env s sp ep hty hsp hep
  · intro hty hpts hsp hep
    by_cases hrot : jsOr s.rotation 0 = 0
    · rw [if_pos hrot]
      exact calculateBounds_pen_unrot env s hty hpts hsp hep hrot
    · rw [if_neg hrot]
      exact calculateBounds_pen_rot env s hty hpts hsp hep hrot

/-- Witness for C4 (amended): the unrotated rectangle `(0,0)-(10,10)`
gets its min/max box, and the rotated pen stroke gets its
rotated-sample-point box. -/
theorem calculateBounds_shape_pen_witness :
    calculateBounds env0 rectA = shapeMinMaxBox ⟨0, 0⟩ ⟨10, 10⟩ ∧
      calculateBounds envC penStroke3 =
        rotPointsBounds envC (jsOr penStroke3.rotation 0) penStroke3.points := by
  constructor
  · have h := (calculateBounds_shape_pen env0 rectA).1 (Or.inl rfl) ⟨0, 0⟩ ⟨10, 10⟩ rfl rfl
    rw [h]
    norm_num [rectA, jsOr]
  · have h := (calculateBounds_shape_pen envC penStroke3).2 rfl (by decide) rfl rfl
    rw [h]
    norm_num [penStroke3, jsOr]
